import Mathlib

/-!
Verification of the PRIME reward-model worker
(`src/rl/verl/workers/fsdp_workers.py`).

The development shallowly embeds the score-attribution arithmetic of
`PRIMERewardModelWorker._forward_micro_batch` (lines 1000-1048), the
control flow of `PRIMERewardModelWorker.compute_rm_score`
(lines 1050-1174), the constructor normalisation of batch sizes
(lines 824-831), the `batch_norm` reward normalisation
(lines 1156-1159), and the `rm_data` binding structure of
`RewardModelWorker.compute_rm_score` (lines 799-817).

Tensors are modelled row-wise as Lean lists over `ℚ`; Python slicing
(including its negative-index and `[-0:]` semantics) is modelled
explicitly.  Model forward passes (the logits produced by the wrapped
network) are opaque inputs: per-position log-probabilities are data of
the embedding, and in the control-flow model the forward pass is an
oracle indexed by the current parameter version.
-/

namespace PRIME

/-! ### Python slicing primitives -/

/-- Effective index of a Python slice endpoint `i` for a sequence of
length `len`: negative endpoints count from the end and are clamped at
`0`, non-negative endpoints are clamped at `len`. -/
def pyBound (len : ℕ) (i : ℤ) : ℕ :=
  if i < 0 then ((len : ℤ) + i).toNat else min i.toNat len

/-- Python slice `xs[a:b]` (step 1). -/
def pySlice {α : Type*} (xs : List α) (a b : ℤ) : List α :=
  (xs.drop (pyBound xs.length a)).take (pyBound xs.length b - pyBound xs.length a)

/-- Python slice `xs[a:]`.  Note `xs[-0:] = xs[0:] = xs`, which the
source hits when `num_actions == 0`. -/
def pySliceFrom {α : Type*} (xs : List α) (a : ℤ) : List α :=
  pySlice xs a (xs.length : ℤ)

/-- Python element assignment `xs[i] = v` with negative-index
semantics.  An out-of-range index raises `IndexError` in Python; the
call sites below are proved in range, and the model leaves the list
unchanged in that case. -/
def pySet {α : Type*} (xs : List α) (i : ℤ) (v : α) : List α :=
  let k : ℤ := if i < 0 then (xs.length : ℤ) + i else i
  if 0 ≤ k ∧ k < (xs.length : ℤ) then xs.set k.toNat v else xs

/-! ### Data model of one sample of a micro-batch -/

/-- One row of a micro-batch as seen by
`PRIMERewardModelWorker._forward_micro_batch`.  `rmLog` and `refLog`
are the rows `rm_log_labels[i]` and `ref_log_labels[i]` (lines
1004-1018): gathered next-token log-probabilities, of length
`inputIds.length - 1`; they are opaque outputs of the two wrapped
models and hence inputs of the embedding. -/
structure Sample where
  inputIds : List ℤ
  mask : List ℕ
  rmLog : List ℚ
  refLog : List ℚ

/-- Line 1020: `num_actions = micro_batch['input_ids'].shape[-1] - prompt_length`
(Python `int` subtraction, so the value is an integer that may be
negative). -/
def numActions (s : Sample) (promptLength : ℕ) : ℤ :=
  (s.inputIds.length : ℤ) - (promptLength : ℤ)

/-- Line 1021: `max_positions = micro_batch['attention_mask'][:, prompt_length:].sum(-1)`,
for one row. -/
def maxPosition (s : Sample) (promptLength : ℕ) : ℕ :=
  (pySliceFrom s.mask (promptLength : ℤ)).sum

/-- Line 1024: `q = rm_log_labels[:, -num_actions:] - ref_log_labels[:, -num_actions:]`,
for one row. -/
def qRow (s : Sample) (promptLength : ℕ) : List ℚ :=
  List.zipWith (· - ·)
    (pySliceFrom s.rmLog (-(numActions s promptLength)))
    (pySliceFrom s.refLog (-(numActions s promptLength)))

/-- Reward granularity (`config.prime_granularity`, lines 1030-1037).
Any other value raises `NotImplementedError`. -/
inductive Granularity
  | token
  | whole
deriving DecidableEq

/-- Lines 1030-1035: the `step_ends` entry of one row: every valid
response position for `token`, the single position
`max_positions[i] - 1` for `whole` (an integer, `-1` when the row has
no valid response token). -/
def stepEndsRow (g : Granularity) (s : Sample) (promptLength : ℕ) : List ℤ :=
  match g with
  | .token => (List.range (maxPosition s promptLength)).map (fun i : ℕ => (i : ℤ))
  | .whole => [(maxPosition s promptLength : ℤ) - 1]

/-- Lines 1043-1046, one iteration of the inner loop: with previous
boundary `prev` (`none` for `j == 0`) and current boundary `e`,
`step_range = [min(prev+1, num_actions-1) if j > 0 else 0, min(num_actions-1, e)]`
and `token_level_score[i, step_range[1]] = q[i, step_range[0]:step_range[1]+1].sum()`. -/
def assignStep (q : List ℚ) (na : ℤ) (prev : Option ℤ) (e : ℤ)
    (score : List ℚ) : List ℚ :=
  let a : ℤ :=
    match prev with
    | Option.none => 0
    | Option.some p => min (p + 1) (na - 1)
  let b : ℤ := min (na - 1) e
  pySet score b (pySlice q a (b + 1)).sum

/-- Lines 1042-1046: the inner loop over the boundaries of one row,
threading the previous boundary. -/
def assignLoop (q : List ℚ) (na : ℤ) :
    List ℤ → Option ℤ → List ℚ → List ℚ
  | [], _, score => score
  | e :: rest, prev, score =>
      assignLoop q na rest (Option.some e) (assignStep q na prev e score)

/-- Lines 1020-1046 of `_forward_micro_batch` for one row: the
token-level score of one sample.  The zero initialisation is
`torch.zeros_like(micro_batch['input_ids'][:, -num_actions:])`
(line 1039). -/
def tokenLevelScoreRow (g : Granularity) (promptLength : ℕ) (s : Sample) : List ℚ :=
  let na := numActions s promptLength
  let q := qRow s promptLength
  let zeros : List ℚ := List.replicate (pySliceFrom s.inputIds (-na)).length 0
  assignLoop q na (stepEndsRow g s promptLength) Option.none zeros

/-! ### Reward normalisation (`batch_norm`), lines 1156-1159 -/

/-- Inclusive prefix sums: `torch.cumsum(xs, dim=-1)` on one row. -/
def cumsumFrom (acc : ℚ) : List ℚ → List ℚ
  | [] => []
  | x :: xs => (acc + x) :: cumsumFrom (acc + x) xs

/-- One row of `torch.cumsum(x, dim=-1)`. -/
def cumsum (xs : List ℚ) : List ℚ := cumsumFrom 0 xs

/-- One row of
`torch.cumsum(token_level_scores.flip(dims=[1]), dim=-1).flip(dims=[1])`
(line 1158): entry `j` is the sum of the row from `j` to the end. -/
def reverseCumsumRow (xs : List ℚ) : List ℚ := (cumsum xs.reverse).reverse

/-- Line 1158 on the whole batch. -/
def reverseCumsum (xss : List (List ℚ)) : List (List ℚ) :=
  xss.map reverseCumsumRow

/-- The scalar `t.abs().max()` over a whole 2-d tensor.  `torch.max`
raises on an empty tensor; since every `|x|` is non-negative, folding
from `0` agrees with it on every non-empty tensor and totalises the
empty one. -/
def maxAbsAll (xss : List (List ℚ)) : ℚ :=
  ((xss.map (fun r => r.map (fun x => |x|))).flatten).foldl max 0

/-- The constant `1e-6` of line 1159. -/
def epsNorm : ℚ := 1 / 1000000

/-- Line 1159:
`token_level_scores = token_level_scores / (reverse_cumsum.abs().max() + 1e-6)`. -/
def batchNorm (xss : List (List ℚ)) : List (List ℚ) :=
  let d := maxAbsAll (reverseCumsum xss) + epsNorm
  xss.map (fun r => r.map (fun x => x / d))

/-! ### Worker configuration and constructor, lines 824-835 -/

/-- `config.prime_model.update` (line 906): `'none'`, `'before'` or
`'after'`; any other value raises `NotImplementedError` in the
micro-batch loop (line 1110). -/
inductive UpdateType
  | noUpdate
  | before
  | after
deriving DecidableEq

/-- `config.prime_norm` (line 1157): normalisation runs exactly when
the value is `'batch_norm'`. -/
inductive NormMode
  | noNorm
  | batchNormMode
deriving DecidableEq

/-- The configuration fields of `PRIMERewardModelWorker` that the
scoring path reads. -/
structure PRIMEConfig where
  microBatchSize : ℕ
  miniBatchSize : ℕ
  update : UpdateType
  granularity : Granularity
  norm : NormMode
deriving DecidableEq

/-- Lines 824-831 of `PRIMERewardModelWorker.__init__`: the only
batch-size normalisation performed at construction is
`self.config.micro_batch_size //= torch.distributed.get_world_size()`
(Python floor division). -/
def primeInit (cfg : PRIMEConfig) (worldSize : ℕ) : PRIMEConfig :=
  { cfg with microBatchSize := cfg.microBatchSize / worldSize }

/-! ### Control flow of `PRIMERewardModelWorker.compute_rm_score`,
lines 1050-1174.

The wrapped reward model is opaque; its observable state is the
number of optimizer steps applied so far (`paramVersion`), and the
token-level scores a forward pass produces are given by an oracle
`fwd : paramVersion → microBatchIndex → rows`.  Offload/load calls
move tensors between devices without changing values and are not
modelled. -/

/-- Python float modulo `x % y` for `y ≠ 0`, in exact arithmetic:
`x - floor(x / y) * y`.  (`y == 0` raises `ZeroDivisionError`; here
`⌊x / 0⌋ * 0 = 0`, so the model returns `x`, which is non-zero at
every call site below.) -/
def pyModQ (x y : ℚ) : ℚ := x - ⌊x / y⌋ * y

/-- Mutable state of the first micro-batch loop (lines 1080-1116). -/
structure LoopState where
  paramVersion : ℕ
  optimizerSteps : ℕ
  backwardCount : ℕ
  forwardCount : ℕ
  scores : List (List (List ℚ))
deriving DecidableEq

/-- One iteration of the loop of lines 1080-1116 at micro-batch index
`batchId`: in `'none'` mode a no-grad forward appends its scores; in
`'before'`/`'after'` mode the forward also contributes a backward pass
(lines 1097-1107); then, if the update type trains and
`(batch_id + 1) % accumulate_steps == 0` (line 1112), an optimizer
step runs (`_optimizer_step`, lines 1176-1184) followed by
`zero_grad`. -/
def runMicroBatch (cfg : PRIMEConfig) (fwd : ℕ → ℕ → List (List ℚ))
    (accSteps : ℚ) (st : LoopState) (batchId : ℕ) : LoopState :=
  let st1 : LoopState :=
    match cfg.update with
    | UpdateType.noUpdate =>
        { st with
          scores := st.scores ++ [fwd st.paramVersion batchId]
          forwardCount := st.forwardCount + 1 }
    | _ =>
        { st with
          scores := st.scores ++ [fwd st.paramVersion batchId]
          forwardCount := st.forwardCount + 1
          backwardCount := st.backwardCount + 1 }
  if cfg.update ≠ UpdateType.noUpdate ∧ pyModQ ((batchId : ℚ) + 1) accSteps = 0 then
    { st1 with
      paramVersion := st1.paramVersion + 1
      optimizerSteps := st1.optimizerSteps + 1 }
  else st1

/-- Lines 1156-1159: the optional `batch_norm` normalisation applied
to the final `token_level_scores`. -/
def applyPrimeNorm (nm : NormMode) (tls : List (List ℚ)) : List (List ℚ) :=
  match nm with
  | NormMode.batchNormMode => batchNorm tls
  | NormMode.noNorm => tls

/-- Lines 1070-1071: `mini_batch_size = self.config.mini_batch_size //
torch.distributed.get_world_size()` followed by `accumulate_steps =
mini_batch_size / self.config.micro_batch_size`.  The first is Python
floor division performed at call time; the second is Python *true*
division, so `accumulate_steps` may be fractional, and no validation
of the ratio is performed anywhere in the call. -/
def primeAccSteps (cfg : PRIMEConfig) (worldSize : ℕ) : ℚ :=
  ((cfg.miniBatchSize / worldSize : ℕ) : ℚ) / (cfg.microBatchSize : ℚ)

/-- The full first micro-batch loop of lines 1080-1116, over micro-batch
indices `0, ..., numMicroBatches - 1`. -/
def primeLoop (cfg : PRIMEConfig) (worldSize : ℕ)
    (fwd : ℕ → ℕ → List (List ℚ)) (numMicroBatches : ℕ) : LoopState :=
  (List.range numMicroBatches).foldl
    (runMicroBatch cfg fwd (primeAccSteps cfg worldSize))
    { paramVersion := 0, optimizerSteps := 0, backwardCount := 0,
      forwardCount := 0, scores := [] }

/-- Observable outcome of one `compute_rm_score` call. -/
structure RunResult where
  paramVersion : ℕ
  optimizerSteps : ℕ
  backwardCount : ℕ
  forwardCount : ℕ
  lrSchedulerSteps : ℕ
  accumulateSteps : ℚ
  pass1Scores : List (List ℚ)
  dpoAccBeforeInput : List (List ℚ)
  dpoAccAfterInput : Option (List (List ℚ))
  secondPassRan : Bool
  rmScores : List (List ℚ)
deriving DecidableEq

/-- Lines 1050-1174 of `PRIMERewardModelWorker.compute_rm_score`.
`numMicroBatches` is the length of
`rm_data.batch.split(self.config.micro_batch_size)` (line 1069).
Line 1070 divides `mini_batch_size` by the world size at call time
(floor division); line 1071 computes `accumulate_steps` by Python
*true* division, so it may be fractional, and no validation of the
ratio happens anywhere in the call.  After the loop,
`dpo_acc_before` is computed from the concatenated scores (lines
1119-1128); in `'before'` mode a second forward-only pass over the
same micro-batches overwrites `token_level_scores` and records
`dpo_acc_after` (lines 1133-1154); optional `batch_norm`
normalisation is applied (lines 1156-1159); `'before'`/`'after'`
modes step the LR scheduler once (lines 1162-1165). -/
def computeRmScorePRIME (cfg : PRIMEConfig) (worldSize : ℕ)
    (fwd : ℕ → ℕ → List (List ℚ)) (numMicroBatches : ℕ) : RunResult :=
  let accSteps : ℚ := primeAccSteps cfg worldSize
  let final : LoopState := primeLoop cfg worldSize fwd numMicroBatches
  let pass1 : List (List ℚ) := final.scores.flatten
  let secondPass : Bool := decide (cfg.update = UpdateType.before)
  let pass2 : List (List ℚ) :=
    ((List.range numMicroBatches).map (fun b => fwd final.paramVersion b)).flatten
  let tls : List (List ℚ) := if secondPass then pass2 else pass1
  let rmScores : List (List ℚ) := applyPrimeNorm cfg.norm tls
  { paramVersion := final.paramVersion
    optimizerSteps := final.optimizerSteps
    backwardCount := final.backwardCount
    forwardCount := final.forwardCount + (if secondPass then numMicroBatches else 0)
    lrSchedulerSteps := if cfg.update = UpdateType.noUpdate then 0 else 1
    accumulateSteps := accSteps
    pass1Scores := pass1
    dpoAccBeforeInput := pass1
    dpoAccAfterInput := if secondPass then Option.some pass2 else Option.none
    secondPassRan := secondPass
    rmScores := rmScores }

/-! ### `RewardModelWorker.compute_rm_score`, lines 799-817 -/

/-- Observable outcome of the sequence-classification reward worker's
scoring call. -/
structure SeqClsOutcome where
  forwardPasses : ℕ
deriving DecidableEq

/-- Lines 799-817: `rm_data` is assigned only inside the
`if self._do_switch_chat_template:` branch; line 805 then reads
`rm_data.batch` unconditionally, so when the flag is false Python
raises `UnboundLocalError` before any micro-batch forward pass. -/
def computeRmScoreSeqCls (doSwitchChatTemplate : Bool)
    (numMicroBatches : ℕ) : Except String SeqClsOutcome :=
  let rmData : Option Unit :=
    if doSwitchChatTemplate then Option.some () else Option.none
  match rmData with
  | Option.none => Except.error "UnboundLocalError: rm_data"
  | Option.some _ => Except.ok { forwardPasses := numMicroBatches }

/-- Concrete sample matching the spec's end-to-end scenario: prompt
length 3, response length 4, fully valid mask,
`q = [0.1, 0.2, -0.05, 0.3]`. -/
def sampleWhole : Sample :=
  { inputIds := [1, 1, 1, 1, 1, 1, 1], mask := [1, 1, 1, 1, 1, 1, 1],
    rmLog := [0, 0, 1/10, 2/10, -1/20, 3/10], refLog := [0, 0, 0, 0, 0, 0] }

/-- Concrete sample with a partially valid response (valid length 2 of
4 response positions). -/
def sampleToken : Sample :=
  { inputIds := [1, 1, 1, 1, 1, 1, 1], mask := [1, 1, 1, 1, 1, 0, 0],
    rmLog := [0, 0, 1/10, 2/10, -1/20, 3/10], refLog := [0, 0, 0, 0, 0, 0] }

/-- Concrete sample whose response segment is empty
(`prompt_length == sequence length == 3`). -/
def sampleEmpty : Sample :=
  { inputIds := [1, 1, 1], mask := [1, 1, 1], rmLog := [5, 7], refLog := [1, 1] }

/-- A reward-model forward oracle for concrete runs: parameter
version `v` and micro-batch index `b` yield the single-row score
`[[v + b]]`. -/
def fwdOne : ℕ → ℕ → List (List ℚ) := fun v b => [[(v : ℚ) + (b : ℚ)]]

/-- Configuration with `mini_batch_size / micro_batch_size = 10 / 3`,
the non-integer accumulation ratio named by the spec. -/
def cfgRatio : PRIMEConfig :=
  { microBatchSize := 3, miniBatchSize := 10, update := UpdateType.after,
    granularity := Granularity.whole, norm := NormMode.noNorm }

/-- Configuration with inference-only update mode `'none'`. -/
def cfgNoneMode : PRIMEConfig :=
  { microBatchSize := 2, miniBatchSize := 4, update := UpdateType.noUpdate,
    granularity := Granularity.token, norm := NormMode.noNorm }

/-- Configuration for the batch-size-division scenario: micro-batch 4,
mini-batch 8, worker-group size 2. -/
def cfgBatchSizes : PRIMEConfig :=
  { microBatchSize := 4, miniBatchSize := 8, update := UpdateType.noUpdate,
    granularity := Granularity.whole, norm := NormMode.noNorm }

/-- Configuration with `batch_norm` reward normalisation enabled. -/
def cfgBatchNorm : PRIMEConfig :=
  { microBatchSize := 2, miniBatchSize := 4, update := UpdateType.noUpdate,
    granularity := Granularity.token, norm := NormMode.batchNormMode }

/-! ## Proof development -/

lemma pySliceFrom_nonneg {α : Type*} (xs : List α) (n : ℕ) :
    pySliceFrom xs (n : ℤ) = xs.drop n := by
  unfold pySliceFrom pySlice pyBound
  have h0 : ¬ ((n : ℤ) < 0) := by omega
  have h1 : ¬ ((xs.length : ℤ) < 0) := by omega
  simp only [if_neg h0, if_neg h1, Int.toNat_ofNat, min_self]
  rcases le_or_lt n xs.length with h | h
  · rw [min_eq_left h]
    exact List.take_of_length_le (by simp)
  · rw [min_eq_right h.le]
    simp [List.drop_eq_nil_of_le h.le]

lemma pySliceFrom_neg {α : Type*} (xs : List α) (n : ℕ) (hn : 1 ≤ n) :
    pySliceFrom xs (-(n : ℤ)) = xs.drop (xs.length - n) := by
  unfold pySliceFrom pySlice pyBound
  have h0 : (-(n : ℤ) < 0) := by omega
  have h1 : ¬ ((xs.length : ℤ) < 0) := by omega
  have e1 : ((xs.length : ℤ) + -(n : ℤ)).toNat = xs.length - n := by omega
  simp only [if_pos h0, if_neg h1, Int.toNat_ofNat, min_self, e1]
  exact List.take_of_length_le (by simp)

lemma pySlice_singleton (q : List ℚ) (k : ℕ) (hk : k < q.length) :
    pySlice q (k : ℤ) ((k : ℤ) + 1) = [q[k]] := by
  unfold pySlice pyBound
  have h0 : ¬ ((k : ℤ) < 0) := by omega
  have h1 : ¬ ((k : ℤ) + 1 < 0) := by omega
  have e1 : ((k : ℤ) + 1).toNat = k + 1 := by omega
  simp only [if_neg h0, if_neg h1, Int.toNat_ofNat, e1]
  rw [min_eq_left hk.le, min_eq_left (by omega)]
  have e2 : k + 1 - k = 1 := by omega
  rw [e2, List.drop_eq_getElem_cons hk]
  rfl

lemma pySlice_take (q : List ℚ) (m : ℕ) (hm : m ≤ q.length) :
    pySlice q 0 (m : ℤ) = q.take m := by
  unfold pySlice pyBound
  have h0 : ¬ ((0 : ℤ) < 0) := by omega
  have h1 : ¬ ((m : ℤ) < 0) := by omega
  simp only [if_neg h0, if_neg h1, Int.toNat_ofNat]
  rw [min_eq_left hm]
  simp

lemma pySet_nat (xs : List ℚ) (k : ℕ) (v : ℚ) (hk : k < xs.length) :
    pySet xs (k : ℤ) v = xs.set k v := by
  unfold pySet
  have h0 : ¬ ((k : ℤ) < 0) := by omega
  simp only [if_neg h0]
  rw [if_pos ⟨by omega, by omega⟩, Int.toNat_ofNat]

lemma assignStep_none (q : List ℚ) (na e : ℤ) (score : List ℚ) :
    assignStep q na Option.none e score
      = pySet score (min (na - 1) e) (pySlice q 0 (min (na - 1) e + 1)).sum := rfl

lemma assignStep_some (q : List ℚ) (na p e : ℤ) (score : List ℚ) :
    assignStep q na (Option.some p) e score
      = pySet score (min (na - 1) e)
          (pySlice q (min (p + 1) (na - 1)) (min (na - 1) e + 1)).sum := rfl

lemma assignStep_diag (q : List ℚ) (N k : ℕ) (hq : q.length = N) (hk : k < N) :
    assignStep q (N : ℤ) (if k = 0 then Option.none else Option.some ((k : ℤ) - 1)) (k : ℤ)
      (q.take k ++ List.replicate (N - k) 0)
    = q.take (k + 1) ++ List.replicate (N - (k + 1)) 0 := by
  have hb : min ((N : ℤ) - 1) (k : ℤ) = (k : ℤ) := min_eq_right (by omega)
  have hmain : pySet (q.take k ++ List.replicate (N - k) 0) (k : ℤ)
      (pySlice q (k : ℤ) ((k : ℤ) + 1)).sum
      = q.take (k + 1) ++ List.replicate (N - (k + 1)) 0 := by
    rw [pySlice_singleton q k (by omega)]
    have hlen : k < (q.take k ++ List.replicate (N - k) 0).length := by
      rw [List.length_append, List.length_take, List.length_replicate]
      omega
    rw [pySet_nat _ k _ hlen, List.sum_cons, List.sum_nil, add_zero]
    have htk : (q.take k).length = k := by
      rw [List.length_take]; omega
    rw [List.set_append, if_neg (by omega), htk, Nat.sub_self]
    have hrep : List.replicate (N - k) (0 : ℚ) = 0 :: List.replicate (N - k - 1) 0 := by
      conv_lhs => rw [show N - k = (N - k - 1) + 1 by omega]
      rw [List.replicate_succ]
    rw [hrep, List.set_cons_zero,
        show q[k] :: List.replicate (N - k - 1) (0 : ℚ)
          = [q[k]] ++ List.replicate (N - k - 1) 0 from rfl,
        ← List.append_assoc, List.take_concat_get', Nat.sub_sub]
  by_cases hk0 : k = 0
  · subst hk0
    rw [if_pos rfl, assignStep_none]
    have ha : min ((N : ℤ) - 1) ((0 : ℕ) : ℤ) = ((0 : ℕ) : ℤ) := by
      rw [Nat.cast_zero]
      exact min_eq_right (by omega)
    rw [ha]
    simpa using hmain
  · rw [if_neg hk0, assignStep_some, hb]
    have ha : min (((k : ℤ) - 1) + 1) ((N : ℤ) - 1) = (k : ℤ) := by
      rw [show (k : ℤ) - 1 + 1 = (k : ℤ) by ring]
      exact min_eq_left (by omega)
    rw [ha]
    exact hmain

lemma getD_replicate_zero (n j : ℕ) : (List.replicate n (0 : ℚ)).getD j 0 = 0 := by
  rw [List.getD_eq_getElem?_getD, List.getElem?_replicate]
  split <;> rfl

lemma set_replicate_zero (N j : ℕ) (v : ℚ) (hj : j < N) :
    (List.replicate N (0 : ℚ)).set j v
      = List.replicate j 0 ++ v :: List.replicate (N - j - 1) 0 := by
  have h1 : List.replicate N (0 : ℚ) = List.replicate j 0 ++ List.replicate (N - j) 0 := by
    rw [← List.replicate_add]
    congr 1
    omega
  rw [h1, List.set_append, if_neg (by rw [List.length_replicate]; omega),
      List.length_replicate, Nat.sub_self]
  congr 1
  have h2 : List.replicate (N - j) (0 : ℚ) = 0 :: List.replicate (N - j - 1) 0 := by
    conv_lhs => rw [show N - j = (N - j - 1) + 1 by omega]
    rw [List.replicate_succ]
  rw [h2, List.set_cons_zero]

lemma assignLoop_range' (q : List ℚ) (N : ℕ) (hq : q.length = N) :
    ∀ (cnt k : ℕ), k + cnt ≤ N →
      assignLoop q (N : ℤ) ((List.range' k cnt).map (fun i : ℕ => (i : ℤ)))
        (if k = 0 then Option.none else Option.some ((k : ℤ) - 1))
        (q.take k ++ List.replicate (N - k) 0)
      = q.take (k + cnt) ++ List.replicate (N - (k + cnt)) 0 := by
  intro cnt
  induction cnt with
  | zero =>
      intro k hk
      simp [assignLoop]
  | succ n ih =>
      intro k hk
      rw [List.range'_succ, List.map_cons]
      simp only [assignLoop]
      rw [assignStep_diag q N k hq (by omega)]
      have h2 := ih (k + 1) (by omega)
      rw [if_neg (Nat.succ_ne_zero k)] at h2
      rw [show ((k + 1 : ℕ) : ℤ) - 1 = (k : ℤ) by push_cast; ring] at h2
      rw [show k + 1 + n = k + (n + 1) by omega] at h2
      exact h2

lemma assignLoop_whole (q : List ℚ) (N m : ℕ) (hq : q.length = N)
    (hm1 : 1 ≤ m) (hmN : m ≤ N) :
    assignLoop q (N : ℤ) [(m : ℤ) - 1] Option.none (List.replicate N 0)
      = List.replicate (m - 1) 0 ++ (q.take m).sum :: List.replicate (N - m) 0 := by
  simp only [assignLoop, assignStep_none]
  have hb : min ((N : ℤ) - 1) ((m : ℤ) - 1) = (m : ℤ) - 1 := min_eq_right (by omega)
  rw [hb, show (m : ℤ) - 1 + 1 = (m : ℤ) by ring, pySlice_take q m (by omega)]
  rw [show (m : ℤ) - 1 = ((m - 1 : ℕ) : ℤ) by omega]
  rw [pySet_nat _ (m - 1) _ (by rw [List.length_replicate]; omega)]
  rw [set_replicate_zero N (m - 1) _ (by omega)]
  rw [show N - (m - 1) - 1 = N - m by omega]

lemma numActions_eq (s : Sample) (p : ℕ) (hp2 : p ≤ s.inputIds.length) :
    numActions s p = ((s.inputIds.length - p : ℕ) : ℤ) := by
  unfold numActions
  omega

lemma maxPosition_eq (s : Sample) (p : ℕ) :
    maxPosition s p = (s.mask.drop p).sum := by
  unfold maxPosition
  rw [pySliceFrom_nonneg]

lemma maxPosition_le (s : Sample) (p : ℕ)
    (hmask : s.mask.length = s.inputIds.length)
    (h01 : ∀ x ∈ s.mask, x ≤ 1) :
    maxPosition s p ≤ s.inputIds.length - p := by
  rw [maxPosition_eq]
  have h := List.sum_le_card_nsmul (s.mask.drop p) 1
    (fun x hx => h01 x (List.mem_of_mem_drop hx))
  simpa [hmask] using h

lemma qRow_length (s : Sample) (p : ℕ) (hp1 : 1 ≤ p)
    (hNpos : p < s.inputIds.length)
    (hrm : s.rmLog.length = s.inputIds.length - 1)
    (href : s.refLog.length = s.inputIds.length - 1) :
    (qRow s p).length = s.inputIds.length - p := by
  unfold qRow
  rw [numActions_eq s p (le_of_lt hNpos),
      pySliceFrom_neg _ _ (by omega), pySliceFrom_neg _ _ (by omega),
      List.length_zipWith, List.length_drop, List.length_drop, hrm, href]
  omega

lemma tokenLevelScoreRow_def (g : Granularity) (p : ℕ) (s : Sample) :
    tokenLevelScoreRow g p s
      = assignLoop (qRow s p) (numActions s p) (stepEndsRow g s p) Option.none
          (List.replicate (pySliceFrom s.inputIds (-(numActions s p))).length 0) := rfl

lemma stepEndsRow_token (s : Sample) (p : ℕ) :
    stepEndsRow Granularity.token s p
      = (List.range (maxPosition s p)).map (fun i : ℕ => (i : ℤ)) := rfl

lemma stepEndsRow_whole (s : Sample) (p : ℕ) :
    stepEndsRow Granularity.whole s p = [(maxPosition s p : ℤ) - 1] := rfl

lemma zeros_length (s : Sample) (p : ℕ) (hNpos : p < s.inputIds.length) :
    (pySliceFrom s.inputIds (-(numActions s p))).length = s.inputIds.length - p := by
  rw [numActions_eq s p (le_of_lt hNpos), pySliceFrom_neg _ _ (by omega), List.length_drop]
  omega

lemma tokenLevelScoreRow_token_eq (p : ℕ) (s : Sample)
    (hp1 : 1 ≤ p) (hNpos : p < s.inputIds.length)
    (hmask : s.mask.length = s.inputIds.length)
    (h01 : ∀ x ∈ s.mask, x ≤ 1)
    (hrm : s.rmLog.length = s.inputIds.length - 1)
    (href : s.refLog.length = s.inputIds.length - 1) :
    tokenLevelScoreRow Granularity.token p s
      = (qRow s p).take (maxPosition s p)
        ++ List.replicate ((s.inputIds.length - p) - maxPosition s p) 0 := by
  have hmN : maxPosition s p ≤ s.inputIds.length - p := maxPosition_le s p hmask h01
  have hq : (qRow s p).length = s.inputIds.length - p :=
    qRow_length s p hp1 hNpos hrm href
  rw [tokenLevelScoreRow_def, stepEndsRow_token, List.range_eq_range',
      zeros_length s p hNpos, numActions_eq s p (le_of_lt hNpos)]
  have key := assignLoop_range' (qRow s p) (s.inputIds.length - p) hq
      (maxPosition s p) 0 (by omega)
  rw [if_pos rfl] at key
  simpa using key

lemma tokenLevelScoreRow_whole_eq (p : ℕ) (s : Sample)
    (hp1 : 1 ≤ p) (hp2 : p ≤ s.inputIds.length)
    (hmask : s.mask.length = s.inputIds.length)
    (h01 : ∀ x ∈ s.mask, x ≤ 1)
    (hrm : s.rmLog.length = s.inputIds.length - 1)
    (href : s.refLog.length = s.inputIds.length - 1)
    (hm1 : 1 ≤ maxPosition s p) :
    tokenLevelScoreRow Granularity.whole p s
      = List.replicate (maxPosition s p - 1) 0
        ++ ((qRow s p).take (maxPosition s p)).sum
          :: List.replicate ((s.inputIds.length - p) - maxPosition s p) 0 := by
  have hmN : maxPosition s p ≤ s.inputIds.length - p := maxPosition_le s p hmask h01
  have hNpos : p < s.inputIds.length := by omega
  have hq : (qRow s p).length = s.inputIds.length - p :=
    qRow_length s p hp1 hNpos hrm href
  rw [tokenLevelScoreRow_def, stepEndsRow_whole,
      zeros_length s p hNpos, numActions_eq s p (le_of_lt hNpos)]
  rw [show ((maxPosition s p : ℤ)) - 1 = ((maxPosition s p : ℕ) : ℤ) - 1 from rfl]
  exact assignLoop_whole (qRow s p) (s.inputIds.length - p) (maxPosition s p) hq hm1 hmN

lemma pySlice_zero (q : List ℚ) : pySlice q 0 0 = [] := by
  unfold pySlice
  simp

lemma pySet_neg_one (xs : List ℚ) (v : ℚ) (hx : 1 ≤ xs.length) :
    pySet xs (-1) v = xs.set (xs.length - 1) v := by
  unfold pySet
  have h0 : (-1 : ℤ) < 0 := by norm_num
  simp only [if_pos h0]
  rw [if_pos ⟨by omega, by omega⟩]
  congr 1
  omega

lemma tokenLevelScoreRow_empty (g : Granularity) (p : ℕ) (s : Sample)
    (hp1 : 1 ≤ p) (hpL : s.inputIds.length = p)
    (hmask : s.mask.length = s.inputIds.length) :
    tokenLevelScoreRow g p s = List.replicate s.inputIds.length 0 := by
  have hna : numActions s p = 0 := by
    unfold numActions
    omega
  have hzero : (pySliceFrom s.inputIds (-(numActions s p))).length = s.inputIds.length := by
    rw [hna, show (-(0 : ℤ)) = ((0 : ℕ) : ℤ) by norm_num, pySliceFrom_nonneg]
    simp
  have hm0 : maxPosition s p = 0 := by
    rw [maxPosition_eq, List.drop_eq_nil_of_le (by omega), List.sum_nil]
  cases g with
  | token =>
      rw [tokenLevelScoreRow_def, stepEndsRow_token, hm0, hzero]
      simp [assignLoop]
  | whole =>
      rw [tokenLevelScoreRow_def, stepEndsRow_whole, hm0, hzero, hna]
      simp only [Nat.cast_zero, zero_sub, assignLoop, assignStep_none]
      rw [min_self, show (-1 : ℤ) + 1 = 0 by ring, pySlice_zero, List.sum_nil,
          pySet_neg_one _ _ (by rw [List.length_replicate]; omega),
          List.set_replicate_self]

/-- C1: with granularity `whole`, the token-level score of every
sample has all entries zero except position `validLength - 1` (which,
since `validLength <= numActions`, is the claim's
`min(validLength - 1, numActions - 1)`), whose value is the sum of `q`
over the full valid response segment. -/
theorem whole_granularity_single_entry (p : ℕ) (s : Sample)
    (hp1 : 1 ≤ p) (hp2 : p ≤ s.inputIds.length)
    (hmask : s.mask.length = s.inputIds.length)
    (h01 : ∀ x ∈ s.mask, x ≤ 1)
    (hrm : s.rmLog.length = s.inputIds.length - 1)
    (href : s.refLog.length = s.inputIds.length - 1)
    (hm1 : 1 ≤ maxPosition s p) :
    tokenLevelScoreRow Granularity.whole p s
      = List.replicate (maxPosition s p - 1) 0
        ++ ((qRow s p).take (maxPosition s p)).sum
          :: List.replicate ((s.inputIds.length - p) - maxPosition s p) 0 :=
  tokenLevelScoreRow_whole_eq p s hp1 hp2 hmask h01 hrm href hm1

/-- Witness instantiating all hypotheses of the C1 theorem on the
spec's end-to-end scenario sample. -/
theorem whole_granularity_single_entry_witness :
    (1 ≤ maxPosition sampleWhole 3)
      ∧ tokenLevelScoreRow Granularity.whole 3 sampleWhole
          = List.replicate (maxPosition sampleWhole 3 - 1) 0
            ++ ((qRow sampleWhole 3).take (maxPosition sampleWhole 3)).sum
              :: List.replicate ((sampleWhole.inputIds.length - 3) - maxPosition sampleWhole 3) 0 :=
  ⟨by decide,
   whole_granularity_single_entry 3 sampleWhole (by decide) (by decide) (by decide)
     (by decide) (by decide) (by decide) (by decide)⟩

/-- C2: with granularity `token`, summing the token-level score over
the response segment equals the sum of `q` over the valid response
segment; the entries at valid positions are exactly the pointwise `q`
(the cumulative `q` since the previous boundary, the boundaries being
every valid position), and all later positions are zero. -/
theorem token_granularity_telescoping (p : ℕ) (s : Sample)
    (hp1 : 1 ≤ p) (hp2 : p ≤ s.inputIds.length)
    (hmask : s.mask.length = s.inputIds.length)
    (h01 : ∀ x ∈ s.mask, x ≤ 1)
    (hrm : s.rmLog.length = s.inputIds.length - 1)
    (href : s.refLog.length = s.inputIds.length - 1) :
    (tokenLevelScoreRow Granularity.token p s).sum
        = ((qRow s p).take (maxPosition s p)).sum
      ∧ (∀ j, j < maxPosition s p →
          (tokenLevelScoreRow Granularity.token p s).getD j 0 = (qRow s p).getD j 0)
      ∧ (∀ j, maxPosition s p ≤ j →
          (tokenLevelScoreRow Granularity.token p s).getD j 0 = 0) := by
  rcases eq_or_lt_of_le hp2 with hpL | hNpos
  · have hs := tokenLevelScoreRow_empty Granularity.token p s hp1 hpL.symm hmask
    have hm0 : maxPosition s p = 0 := by
      rw [maxPosition_eq, List.drop_eq_nil_of_le (by omega), List.sum_nil]
    refine ⟨?_, ?_, ?_⟩
    · rw [hs, hm0]
      simp
    · intro j hj
      rw [hm0] at hj
      omega
    · intro j _
      rw [hs]
      exact getD_replicate_zero _ _
  · have hst := tokenLevelScoreRow_token_eq p s hp1 hNpos hmask h01 hrm href
    have hq := qRow_length s p hp1 hNpos hrm href
    have hmN := maxPosition_le s p hmask h01
    have htkl : ((qRow s p).take (maxPosition s p)).length = maxPosition s p := by
      rw [List.length_take]
      omega
    refine ⟨?_, ?_, ?_⟩
    · rw [hst, List.sum_append, List.sum_replicate, smul_zero, add_zero]
    · intro j hj
      rw [hst, List.getD_append _ _ _ _ (by omega),
          List.getD_eq_getElem?_getD, List.getD_eq_getElem?_getD,
          List.getElem?_take, if_pos hj]
    · intro j hj
      rw [hst, List.getD_append_right _ _ _ _ (by omega), htkl]
      exact getD_replicate_zero _ _

/-- Witness instantiating all hypotheses of the C2 theorem on a
partially masked sample. -/
theorem token_granularity_telescoping_witness :
    (1 ≤ 3)
      ∧ ((tokenLevelScoreRow Granularity.token 3 sampleToken).sum
            = ((qRow sampleToken 3).take (maxPosition sampleToken 3)).sum
          ∧ (∀ j, j < maxPosition sampleToken 3 →
              (tokenLevelScoreRow Granularity.token 3 sampleToken).getD j 0
                = (qRow sampleToken 3).getD j 0)
          ∧ (∀ j, maxPosition sampleToken 3 ≤ j →
              (tokenLevelScoreRow Granularity.token 3 sampleToken).getD j 0 = 0)) :=
  ⟨by decide,
   token_granularity_telescoping 3 sampleToken (by decide) (by decide) (by decide)
     (by decide) (by decide) (by decide)⟩

/-- C7: when the response segment is empty
(`numActions = sequenceLength - promptLength = 0`), the token-level
score of `_forward_micro_batch` is all-zero for either granularity; no
division or out-of-range write occurs (the model is total on this
input and the single `whole`-granularity write lands at Python index
`-1`, i.e. the last position, with value `0`). -/
theorem empty_response_zero_scores (g : Granularity) (p : ℕ) (s : Sample)
    (hp1 : 1 ≤ p) (hna0 : numActions s p = 0)
    (hmask : s.mask.length = s.inputIds.length) :
    ∀ x ∈ tokenLevelScoreRow g p s, x = 0 := by
  have hpL : s.inputIds.length = p := by
    unfold numActions at hna0
    omega
  rw [tokenLevelScoreRow_empty g p s hp1 hpL hmask]
  intro x hx
  exact List.eq_of_mem_replicate hx

/-- Witness instantiating the hypotheses of the C7 theorem. -/
theorem empty_response_zero_scores_witness :
    (1 ≤ 3 ∧ numActions sampleEmpty 3 = 0)
      ∧ (∀ x ∈ tokenLevelScoreRow Granularity.whole 3 sampleEmpty, x = 0) :=
  ⟨⟨by decide, by decide⟩,
   empty_response_zero_scores Granularity.whole 3 sampleEmpty (by decide) (by decide) (by decide)⟩

lemma runMicroBatch_forwardCount (cfg : PRIMEConfig) (fwd : ℕ → ℕ → List (List ℚ))
    (a : ℚ) (st : LoopState) (b : ℕ) :
    (runMicroBatch cfg fwd a st b).forwardCount = st.forwardCount + 1 := by
  rcases cfg with ⟨mi, mb, u, g, nm⟩
  unfold runMicroBatch
  cases u <;> dsimp only <;> split <;> rfl

lemma runMicroBatch_scores (cfg : PRIMEConfig) (fwd : ℕ → ℕ → List (List ℚ))
    (a : ℚ) (st : LoopState) (b : ℕ) :
    (runMicroBatch cfg fwd a st b).scores = st.scores ++ [fwd st.paramVersion b] := by
  rcases cfg with ⟨mi, mb, u, g, nm⟩
  unfold runMicroBatch
  cases u <;> dsimp only <;> split <;> rfl

lemma runMicroBatch_backwardCount_none (cfg : PRIMEConfig) (fwd : ℕ → ℕ → List (List ℚ))
    (a : ℚ) (st : LoopState) (b : ℕ) (h : cfg.update = UpdateType.noUpdate) :
    (runMicroBatch cfg fwd a st b).backwardCount = st.backwardCount := by
  rcases cfg with ⟨mi, mb, u, g, nm⟩
  cases h
  unfold runMicroBatch
  dsimp only
  split <;> rfl

lemma runMicroBatch_backwardCount_update (cfg : PRIMEConfig) (fwd : ℕ → ℕ → List (List ℚ))
    (a : ℚ) (st : LoopState) (b : ℕ) (h : cfg.update ≠ UpdateType.noUpdate) :
    (runMicroBatch cfg fwd a st b).backwardCount = st.backwardCount + 1 := by
  rcases cfg with ⟨mi, mb, u, g, nm⟩
  unfold runMicroBatch
  cases u
  · exact absurd rfl h
  · dsimp only
    split <;> rfl
  · dsimp only
    split <;> rfl

lemma runMicroBatch_frame_none (cfg : PRIMEConfig) (fwd : ℕ → ℕ → List (List ℚ))
    (a : ℚ) (st : LoopState) (b : ℕ) (h : cfg.update = UpdateType.noUpdate) :
    (runMicroBatch cfg fwd a st b).optimizerSteps = st.optimizerSteps
      ∧ (runMicroBatch cfg fwd a st b).paramVersion = st.paramVersion := by
  rcases cfg with ⟨mi, mb, u, g, nm⟩
  cases h
  unfold runMicroBatch
  dsimp only
  rw [if_neg (by rintro ⟨hc, -⟩; exact hc rfl)]
  exact ⟨rfl, rfl⟩

lemma runMicroBatch_noStep (cfg : PRIMEConfig) (fwd : ℕ → ℕ → List (List ℚ))
    (a : ℚ) (st : LoopState) (b : ℕ)
    (h : ¬ (cfg.update ≠ UpdateType.noUpdate ∧ pyModQ ((b : ℕ) + 1 : ℚ) a = 0)) :
    (runMicroBatch cfg fwd a st b).optimizerSteps = st.optimizerSteps
      ∧ (runMicroBatch cfg fwd a st b).paramVersion = st.paramVersion := by
  rcases cfg with ⟨mi, mb, u, g, nm⟩
  unfold runMicroBatch
  rw [if_neg h]
  cases u <;> exact ⟨rfl, rfl⟩

lemma runMicroBatch_pv_os (cfg : PRIMEConfig) (fwd : ℕ → ℕ → List (List ℚ))
    (a : ℚ) (st : LoopState) (b : ℕ)
    (h : st.paramVersion = st.optimizerSteps) :
    (runMicroBatch cfg fwd a st b).paramVersion
      = (runMicroBatch cfg fwd a st b).optimizerSteps := by
  rcases cfg with ⟨mi, mb, u, g, nm⟩
  unfold runMicroBatch
  cases u <;> dsimp only <;> split <;> simp [h]

lemma foldl_forwardCount (cfg : PRIMEConfig) (fwd : ℕ → ℕ → List (List ℚ)) (a : ℚ) :
    ∀ (l : List ℕ) (st : LoopState),
      (l.foldl (runMicroBatch cfg fwd a) st).forwardCount = st.forwardCount + l.length := by
  intro l
  induction l with
  | nil => intro st; simp
  | cons b t ih =>
      intro st
      rw [List.foldl_cons, ih, runMicroBatch_forwardCount, List.length_cons]
      omega

lemma foldl_backwardCount_none (cfg : PRIMEConfig) (fwd : ℕ → ℕ → List (List ℚ)) (a : ℚ)
    (h : cfg.update = UpdateType.noUpdate) :
    ∀ (l : List ℕ) (st : LoopState),
      (l.foldl (runMicroBatch cfg fwd a) st).backwardCount = st.backwardCount := by
  intro l
  induction l with
  | nil => intro st; rfl
  | cons b t ih =>
      intro st
      rw [List.foldl_cons, ih, runMicroBatch_backwardCount_none _ _ _ _ _ h]

lemma foldl_backwardCount_update (cfg : PRIMEConfig) (fwd : ℕ → ℕ → List (List ℚ)) (a : ℚ)
    (h : cfg.update ≠ UpdateType.noUpdate) :
    ∀ (l : List ℕ) (st : LoopState),
      (l.foldl (runMicroBatch cfg fwd a) st).backwardCount = st.backwardCount + l.length := by
  intro l
  induction l with
  | nil => intro st; simp
  | cons b t ih =>
      intro st
      rw [List.foldl_cons, ih, runMicroBatch_backwardCount_update _ _ _ _ _ h, List.length_cons]
      omega

lemma foldl_frame_none (cfg : PRIMEConfig) (fwd : ℕ → ℕ → List (List ℚ)) (a : ℚ)
    (h : cfg.update = UpdateType.noUpdate) :
    ∀ (l : List ℕ) (st : LoopState),
      (l.foldl (runMicroBatch cfg fwd a) st).optimizerSteps = st.optimizerSteps
        ∧ (l.foldl (runMicroBatch cfg fwd a) st).paramVersion = st.paramVersion := by
  intro l
  induction l with
  | nil => intro st; exact ⟨rfl, rfl⟩
  | cons b t ih =>
      intro st
      rw [List.foldl_cons]
      rcases ih (runMicroBatch cfg fwd a st b) with ⟨h1, h2⟩
      rcases runMicroBatch_frame_none cfg fwd a st b h with ⟨h3, h4⟩
      exact ⟨h1.trans h3, h2.trans h4⟩

lemma foldl_noStep (cfg : PRIMEConfig) (fwd : ℕ → ℕ → List (List ℚ)) (a : ℚ) :
    ∀ (l : List ℕ) (st : LoopState),
      (∀ b ∈ l, ¬ (cfg.update ≠ UpdateType.noUpdate ∧ pyModQ ((b : ℕ) + 1 : ℚ) a = 0)) →
      (l.foldl (runMicroBatch cfg fwd a) st).optimizerSteps = st.optimizerSteps := by
  intro l
  induction l with
  | nil => intro st _; rfl
  | cons b t ih =>
      intro st hcond
      rw [List.foldl_cons]
      rw [ih (runMicroBatch cfg fwd a st b) (fun x hx => hcond x (by simp [hx]))]
      exact (runMicroBatch_noStep cfg fwd a st b (hcond b (by simp))).1

lemma foldl_pv_os (cfg : PRIMEConfig) (fwd : ℕ → ℕ → List (List ℚ)) (a : ℚ) :
    ∀ (l : List ℕ) (st : LoopState), st.paramVersion = st.optimizerSteps →
      (l.foldl (runMicroBatch cfg fwd a) st).paramVersion
        = (l.foldl (runMicroBatch cfg fwd a) st).optimizerSteps := by
  intro l
  induction l with
  | nil => intro st h; exact h
  | cons b t ih =>
      intro st h
      rw [List.foldl_cons]
      exact ih _ (runMicroBatch_pv_os cfg fwd a st b h)

lemma prime_res_optimizerSteps (cfg : PRIMEConfig) (w : ℕ)
    (fwd : ℕ → ℕ → List (List ℚ)) (n : ℕ) :
    (computeRmScorePRIME cfg w fwd n).optimizerSteps
      = (primeLoop cfg w fwd n).optimizerSteps := rfl

lemma prime_res_paramVersion (cfg : PRIMEConfig) (w : ℕ)
    (fwd : ℕ → ℕ → List (List ℚ)) (n : ℕ) :
    (computeRmScorePRIME cfg w fwd n).paramVersion
      = (primeLoop cfg w fwd n).paramVersion := rfl

lemma prime_res_backwardCount (cfg : PRIMEConfig) (w : ℕ)
    (fwd : ℕ → ℕ → List (List ℚ)) (n : ℕ) :
    (computeRmScorePRIME cfg w fwd n).backwardCount
      = (primeLoop cfg w fwd n).backwardCount := rfl

lemma prime_res_secondPassRan (cfg : PRIMEConfig) (w : ℕ)
    (fwd : ℕ → ℕ → List (List ℚ)) (n : ℕ) :
    (computeRmScorePRIME cfg w fwd n).secondPassRan
      = decide (cfg.update = UpdateType.before) := rfl

lemma prime_res_lrSchedulerSteps (cfg : PRIMEConfig) (w : ℕ)
    (fwd : ℕ → ℕ → List (List ℚ)) (n : ℕ) :
    (computeRmScorePRIME cfg w fwd n).lrSchedulerSteps
      = (if cfg.update = UpdateType.noUpdate then 0 else 1) := rfl

lemma prime_res_accumulateSteps (cfg : PRIMEConfig) (w : ℕ)
    (fwd : ℕ → ℕ → List (List ℚ)) (n : ℕ) :
    (computeRmScorePRIME cfg w fwd n).accumulateSteps = primeAccSteps cfg w := rfl

lemma prime_res_forwardCount (cfg : PRIMEConfig) (w : ℕ)
    (fwd : ℕ → ℕ → List (List ℚ)) (n : ℕ) :
    (computeRmScorePRIME cfg w fwd n).forwardCount
      = (primeLoop cfg w fwd n).forwardCount
        + (if decide (cfg.update = UpdateType.before) = true then n else 0) := rfl

lemma prime_res_pass1Scores (cfg : PRIMEConfig) (w : ℕ)
    (fwd : ℕ → ℕ → List (List ℚ)) (n : ℕ) :
    (computeRmScorePRIME cfg w fwd n).pass1Scores
      = (primeLoop cfg w fwd n).scores.flatten := rfl

lemma prime_res_dpoAccAfterInput (cfg : PRIMEConfig) (w : ℕ)
    (fwd : ℕ → ℕ → List (List ℚ)) (n : ℕ) :
    (computeRmScorePRIME cfg w fwd n).dpoAccAfterInput
      = (if decide (cfg.update = UpdateType.before) = true
         then Option.some
            (((List.range n).map (fun b => fwd (primeLoop cfg w fwd n).paramVersion b)).flatten)
         else Option.none) := rfl

lemma prime_res_rmScores (cfg : PRIMEConfig) (w : ℕ)
    (fwd : ℕ → ℕ → List (List ℚ)) (n : ℕ) :
    (computeRmScorePRIME cfg w fwd n).rmScores
      = applyPrimeNorm cfg.norm
          (if decide (cfg.update = UpdateType.before) = true
           then ((List.range n).map (fun b => fwd (primeLoop cfg w fwd n).paramVersion b)).flatten
           else (primeLoop cfg w fwd n).scores.flatten) := rfl

/-- C5: with update mode `'none'`, `compute_rm_score` takes no
optimizer step, runs no backward pass, leaves the reward model's
parameter version at its initial value (no parameter mutation), and
runs no second scoring pass; the scheduler branch of lines 1162-1165
is also skipped. -/
theorem none_mode_no_update (cfg : PRIMEConfig) (worldSize : ℕ)
    (fwd : ℕ → ℕ → List (List ℚ)) (n : ℕ)
    (h : cfg.update = UpdateType.noUpdate) :
    (computeRmScorePRIME cfg worldSize fwd n).optimizerSteps = 0
      ∧ (computeRmScorePRIME cfg worldSize fwd n).paramVersion = 0
      ∧ (computeRmScorePRIME cfg worldSize fwd n).backwardCount = 0
      ∧ (computeRmScorePRIME cfg worldSize fwd n).secondPassRan = false
      ∧ (computeRmScorePRIME cfg worldSize fwd n).lrSchedulerSteps = 0 := by
  refine ⟨?_, ?_, ?_, ?_, ?_⟩
  · rw [prime_res_optimizerSteps]
    exact (foldl_frame_none cfg fwd _ h _ _).1
  · rw [prime_res_paramVersion]
    exact (foldl_frame_none cfg fwd _ h _ _).2
  · rw [prime_res_backwardCount]
    exact foldl_backwardCount_none cfg fwd _ h _ _
  · rw [prime_res_secondPassRan, h]
    rfl
  · rw [prime_res_lrSchedulerSteps, if_pos h]

/-- Witness instantiating the hypothesis of the C5 theorem on a
concrete `'none'`-mode configuration. -/
theorem none_mode_no_update_witness :
    cfgNoneMode.update = UpdateType.noUpdate
      ∧ ((computeRmScorePRIME cfgNoneMode 1 fwdOne 2).optimizerSteps = 0
          ∧ (computeRmScorePRIME cfgNoneMode 1 fwdOne 2).paramVersion = 0
          ∧ (computeRmScorePRIME cfgNoneMode 1 fwdOne 2).backwardCount = 0
          ∧ (computeRmScorePRIME cfgNoneMode 1 fwdOne 2).secondPassRan = false
          ∧ (computeRmScorePRIME cfgNoneMode 1 fwdOne 2).lrSchedulerSteps = 0) :=
  ⟨rfl, none_mode_no_update cfgNoneMode 1 fwdOne 2 rfl⟩

/-- C6: the double-forward check runs exactly in `'before'` mode: the
second forward-only pass and the `dpo_acc_after` metric exist iff the
update mode is `'before'`; in that mode every micro-batch is forwarded
twice (`2 * n` forwards for `n` micro-batches) while backward passes
happen only in the first loop (`n` of them); in `'none'` and
`'after'` modes each micro-batch is forwarded once. -/
theorem double_forward_exactly_before (cfg : PRIMEConfig) (w : ℕ)
    (fwd : ℕ → ℕ → List (List ℚ)) (n : ℕ) :
    ((computeRmScorePRIME cfg w fwd n).secondPassRan = true ↔ cfg.update = UpdateType.before)
      ∧ ((computeRmScorePRIME cfg w fwd n).dpoAccAfterInput.isSome = true
          ↔ cfg.update = UpdateType.before)
      ∧ (computeRmScorePRIME cfg w fwd n).forwardCount
          = (if cfg.update = UpdateType.before then 2 * n else n)
      ∧ (computeRmScorePRIME cfg w fwd n).backwardCount
          = (if cfg.update = UpdateType.noUpdate then 0 else n) := by
  refine ⟨?_, ?_, ?_, ?_⟩
  · rw [prime_res_secondPassRan]
    exact decide_eq_true_iff
  · rw [prime_res_dpoAccAfterInput]
    by_cases h : cfg.update = UpdateType.before
    · simp [h]
    · simp [h]
  · rw [prime_res_forwardCount]
    unfold primeLoop
    rw [foldl_forwardCount]
    by_cases h : cfg.update = UpdateType.before
    · rw [h, if_pos (by decide)]
      simp [two_mul]
    · rw [if_neg (by simp [h]), if_neg h]
      simp
  · rw [prime_res_backwardCount]
    unfold primeLoop
    by_cases h : cfg.update = UpdateType.noUpdate
    · rw [foldl_backwardCount_none cfg fwd _ h, if_pos h]
    · rw [foldl_backwardCount_update cfg fwd _ h, if_neg h]
      simp

/-- C10: the returned `rm_scores` are the (optionally normalised)
second-pass scores computed at the final parameter version when the
update mode is `'before'` (the double-forward loop overwrites
`token_level_scores`), and the first-pass scores otherwise; the final
parameter version equals the number of optimizer steps taken, and the
`dpo_acc_before` metric is always computed from the first-pass
scores. -/
theorem before_mode_returns_second_pass (cfg : PRIMEConfig) (w : ℕ)
    (fwd : ℕ → ℕ → List (List ℚ)) (n : ℕ) :
    ((computeRmScorePRIME cfg w fwd n).rmScores
        = applyPrimeNorm cfg.norm
            (if cfg.update = UpdateType.before
             then ((List.range n).map
                    (fun b => fwd (computeRmScorePRIME cfg w fwd n).paramVersion b)).flatten
             else (computeRmScorePRIME cfg w fwd n).pass1Scores))
      ∧ (computeRmScorePRIME cfg w fwd n).paramVersion
          = (computeRmScorePRIME cfg w fwd n).optimizerSteps
      ∧ (computeRmScorePRIME cfg w fwd n).dpoAccBeforeInput
          = (computeRmScorePRIME cfg w fwd n).pass1Scores := by
  refine ⟨?_, ?_, rfl⟩
  · rw [prime_res_rmScores, prime_res_paramVersion, prime_res_pass1Scores]
    by_cases h : cfg.update = UpdateType.before
    · simp [h]
    · simp [h]
  · rw [prime_res_paramVersion, prime_res_optimizerSteps]
    unfold primeLoop
    exact foldl_pv_os cfg fwd _ _ _ rfl

/-- C3 counterexample: with `mini_batch_size / micro_batch_size`
equal to `10 / 3` (world size 1), `compute_rm_score` raises no
configuration error: the call completes with the fractional
`accumulate_steps = 10 / 3` (not a natural number) and all four
micro-batch forward passes run. -/
theorem nonInteger_accumulation_no_error :
    (computeRmScorePRIME cfgRatio 1 fwdOne 4).accumulateSteps = 10 / 3
      ∧ (∀ k : ℕ, (computeRmScorePRIME cfgRatio 1 fwdOne 4).accumulateSteps ≠ (k : ℚ))
      ∧ (computeRmScorePRIME cfgRatio 1 fwdOne 4).forwardCount = 4 := by
  have hacc : (computeRmScorePRIME cfgRatio 1 fwdOne 4).accumulateSteps = 10 / 3 := by
    rw [prime_res_accumulateSteps]
    norm_num [primeAccSteps, cfgRatio]
  refine ⟨hacc, ?_, ?_⟩
  · intro k hk
    rw [hacc, div_eq_iff (by norm_num : (3 : ℚ) ≠ 0)] at hk
    have h4 : (10 : ℕ) = k * 3 := by exact_mod_cast hk
    omega
  · rw [prime_res_forwardCount]
    unfold primeLoop
    rw [foldl_forwardCount, if_neg (by decide)]
    simp

/-- C3 amended: no validation of the accumulation ratio exists;
`accumulate_steps` is computed by Python true division and may be
fractional, the forward/backward passes run normally, and with the
ratio `10 / 3` the optimizer-step condition
`(batch_id + 1) % accumulate_steps == 0` never fires over the batch,
so gradients accumulate without ever being applied. -/
theorem nonInteger_accumulation_amended :
    (computeRmScorePRIME cfgRatio 1 fwdOne 4).optimizerSteps = 0
      ∧ (computeRmScorePRIME cfgRatio 1 fwdOne 4).backwardCount = 4
      ∧ (computeRmScorePRIME cfgRatio 1 fwdOne 4).accumulateSteps = 10 / 3 := by
  have haccq : primeAccSteps cfgRatio 1 = 10 / 3 := by
    norm_num [primeAccSteps, cfgRatio]
  refine ⟨?_, ?_, ?_⟩
  · rw [prime_res_optimizerSteps]
    unfold primeLoop
    refine foldl_noStep cfgRatio fwdOne _ _ _ ?_
    intro b hb
    rintro ⟨-, hmod⟩
    rw [haccq] at hmod
    rw [List.mem_range] at hb
    interval_cases b <;> norm_num [pyModQ] at hmod
  · rw [prime_res_backwardCount]
    unfold primeLoop
    rw [foldl_backwardCount_update cfgRatio fwdOne _ (by decide) _ _]
    simp
  · rw [prime_res_accumulateSteps]
    exact haccq

/-- C8 counterexample: `mini_batch_size` is *not* divided by the
worker-group size at construction (`primeInit` leaves it at 8 where
division by the group size 2 would give 4); instead
`compute_rm_score` divides it by the world size at call time when
forming `accumulate_steps` (line 1070). -/
theorem batch_size_division_cex :
    (primeInit cfgBatchSizes 2).miniBatchSize = 8
      ∧ cfgBatchSizes.miniBatchSize / 2 = 4
      ∧ (primeInit cfgBatchSizes 2).miniBatchSize ≠ cfgBatchSizes.miniBatchSize / 2
      ∧ (computeRmScorePRIME (primeInit cfgBatchSizes 2) 2 fwdOne 2).accumulateSteps
          = (((primeInit cfgBatchSizes 2).miniBatchSize / 2 : ℕ) : ℚ)
            / ((primeInit cfgBatchSizes 2).microBatchSize : ℚ) :=
  ⟨rfl, rfl, by decide, rfl⟩

/-- C8 amended: at construction exactly `micro_batch_size` is divided
by the worker-group size; `mini_batch_size` is left unchanged by the
constructor and is instead floor-divided by the world size inside
every `compute_rm_score` call (into a local value, leaving the stored
config unchanged). -/
theorem batch_size_division_amended (cfg : PRIMEConfig) (w : ℕ)
    (fwd : ℕ → ℕ → List (List ℚ)) (n : ℕ) :
    (primeInit cfg w).microBatchSize = cfg.microBatchSize / w
      ∧ (primeInit cfg w).miniBatchSize = cfg.miniBatchSize
      ∧ (computeRmScorePRIME cfg w fwd n).accumulateSteps
          = ((cfg.miniBatchSize / w : ℕ) : ℚ) / (cfg.microBatchSize : ℚ) :=
  ⟨rfl, rfl, rfl⟩

/-- C9: the non-PRIME `RewardModelWorker.compute_rm_score` fails with
`UnboundLocalError` on `rm_data` before any forward pass whenever
chat-template switching is disabled, and only succeeds (running its
micro-batch forwards) when the switch is enabled. -/
theorem seqcls_requires_chat_template (n : ℕ) :
    computeRmScoreSeqCls false n = Except.error "UnboundLocalError: rm_data"
      ∧ computeRmScoreSeqCls true n = Except.ok { forwardPasses := n } :=
  ⟨rfl, rfl⟩

lemma le_foldl_max (l : List ℚ) (a : ℚ) : a ≤ l.foldl max a := by
  induction l generalizing a with
  | nil => exact le_refl a
  | cons x t ih => exact le_trans (le_max_left a x) (ih (max a x))

lemma foldl_max_le (l : List ℚ) (a c : ℚ) (ha : a ≤ c) (h : ∀ x ∈ l, x ≤ c) :
    l.foldl max a ≤ c := by
  induction l generalizing a with
  | nil => exact ha
  | cons x t ih =>
      rw [List.foldl_cons]
      exact ih _ (max_le ha (h x (by simp))) (fun y hy => h y (by simp [hy]))

lemma mem_le_foldl_max (l : List ℚ) (x : ℚ) (hx : x ∈ l) :
    ∀ a, x ≤ l.foldl max a := by
  induction l with
  | nil => cases hx
  | cons y t ih =>
      intro a
      rw [List.foldl_cons]
      rcases List.mem_cons.mp hx with rfl | h
      · exact le_trans (le_max_right a x) (le_foldl_max t (max a x))
      · exact ih h (max a y)

lemma maxAbsAll_nonneg (xss : List (List ℚ)) : 0 ≤ maxAbsAll xss :=
  le_foldl_max _ 0

lemma abs_le_maxAbsAll (xss : List (List ℚ)) (r : List ℚ) (x : ℚ)
    (hr : r ∈ xss) (hx : x ∈ r) : |x| ≤ maxAbsAll xss := by
  apply mem_le_foldl_max
  rw [List.mem_flatten]
  exact ⟨r.map (fun y => |y|), List.mem_map_of_mem _ hr, List.mem_map_of_mem _ hx⟩

lemma maxAbsAll_le (xss : List (List ℚ)) (c : ℚ) (hc : 0 ≤ c)
    (h : ∀ r ∈ xss, ∀ x ∈ r, |x| ≤ c) : maxAbsAll xss ≤ c := by
  unfold maxAbsAll
  apply foldl_max_le _ _ _ hc
  intro z hz
  rw [List.mem_flatten] at hz
  obtain ⟨l, hl, hzl⟩ := hz
  rw [List.mem_map] at hl
  obtain ⟨r, hr, rfl⟩ := hl
  rw [List.mem_map] at hzl
  obtain ⟨y, hy, rfl⟩ := hzl
  exact h r hr y hy

lemma cumsumFrom_div (d : ℚ) (l : List ℚ) (a : ℚ) :
    cumsumFrom (a / d) (l.map (fun x => x / d))
      = (cumsumFrom a l).map (fun x => x / d) := by
  induction l generalizing a with
  | nil => rfl
  | cons x t ih =>
      simp only [List.map_cons, cumsumFrom]
      rw [show a / d + x / d = (a + x) / d by ring, ih]

lemma reverseCumsumRow_div (d : ℚ) (r : List ℚ) :
    reverseCumsumRow (r.map (fun x => x / d))
      = (reverseCumsumRow r).map (fun x => x / d) := by
  unfold reverseCumsumRow cumsum
  conv_lhs => rw [← List.map_reverse, show (0 : ℚ) = 0 / d by ring, cumsumFrom_div]
  rw [List.map_reverse]

lemma reverseCumsum_batchNorm (xss : List (List ℚ)) :
    reverseCumsum (batchNorm xss)
      = (reverseCumsum xss).map
          (fun r => r.map (fun x => x / (maxAbsAll (reverseCumsum xss) + epsNorm))) := by
  unfold batchNorm reverseCumsum
  rw [List.map_map, List.map_map]
  exact List.map_congr_left (fun r _ => reverseCumsumRow_div _ r)

/-- C4: `batch_norm` normalisation divides every token-level score by
`max |R| + 1e-6` where `R` is the reverse cumulative sum over the
batch, and consequently the maximum absolute reverse cumulative sum of
the normalised scores is at most `1 + 1e-6` for any input. -/
theorem batch_norm_bounded (xss : List (List ℚ)) :
    batchNorm xss
        = xss.map (fun r => r.map (fun x => x / (maxAbsAll (reverseCumsum xss) + epsNorm)))
      ∧ maxAbsAll (reverseCumsum (batchNorm xss)) ≤ 1 + epsNorm := by
  constructor
  · rfl
  · have hM0 : 0 ≤ maxAbsAll (reverseCumsum xss) := maxAbsAll_nonneg _
    have heps : (0 : ℚ) < epsNorm := by norm_num [epsNorm]
    have hd0 : 0 < maxAbsAll (reverseCumsum xss) + epsNorm := by linarith
    rw [reverseCumsum_batchNorm]
    apply maxAbsAll_le _ _ (by linarith)
    intro r0 hr0 x hx
    rw [List.mem_map] at hr0
    obtain ⟨r, hr, rfl⟩ := hr0
    rw [List.mem_map] at hx
    obtain ⟨y, hy, rfl⟩ := hx
    have h1 : |y| ≤ maxAbsAll (reverseCumsum xss) := abs_le_maxAbsAll _ r y hr hy
    have h2 : |y / (maxAbsAll (reverseCumsum xss) + epsNorm)|
        = |y| / (maxAbsAll (reverseCumsum xss) + epsNorm) := by
      rw [abs_div, abs_of_pos hd0]
    rw [h2]
    have h3 : |y| / (maxAbsAll (reverseCumsum xss) + epsNorm) ≤ 1 := by
      rw [div_le_one hd0]
      linarith
    linarith

end PRIME
